import Mathlib

/-!
Verification of the trading-engine core of the `exness-end-to-end` repository
(`src/engine/src/balance_manager.rs`, `src/engine/src/processor.rs`).

Modelling conventions (shallow embedding):

* `rust_decimal::Decimal` is modelled as exact rational arithmetic (`ℚ`).
  `Decimal`'s 28-significant-digit rounding on division is not modelled;
  additions, subtractions and multiplications are exact in both worlds.
* `HashMap` and `BTreeMap` are modelled as association lists
  (`List (key × value)`), with the first binding of a key authoritative.
  `insert` replaces the first binding in place, `entry().or_insert` adds a
  fresh binding at the end, `remove` deletes the first binding.  The
  `BTreeMap` keys of the liquidation map are `Decimal::to_string` strings in
  the source; since the scanner iterates over *all* buckets and only parses
  the key back (`price_key.parse::<Decimal>()`), the string layer is dropped
  and buckets are keyed by the rational value directly.
* The `tokio::sync::RwLock`s are modelled sequentially: every operation is a
  pure state transformer, mirroring the lock-protected critical sections.
* A Rust panic (in particular `Decimal` division by zero, reachable from
  `order.quantity = margin * leverage / price` at a zero quoted price and
  from `Decimal::from(90) / Decimal::from(order.leverage * 100)` when
  `leverage * 100` is `0` modulo `2^32`) is modelled as the result `none`.
* The `u32` multiplication `order.leverage * 100` is modelled with its
  release-mode wrapping semantics, `(leverage * 100) % 2^32`.
-/

namespace Exness

/-- `rust_decimal::Decimal`, modelled as an exact rational. -/
abbrev Dec := ℚ

/-- `Order` (balance_manager.rs, lines 7-18).  `leverage : u32` is modelled
as a natural number; wrapping is applied at its use site. -/
structure Order where
  order_id : String
  user_id : String
  asset : String
  order_type : String
  margin : Dec
  leverage : Nat
  open_price : Dec
  quantity : Dec
  timestamp : Int
deriving DecidableEq

/-- `AssetPrice` (balance_manager.rs, lines 20-26). -/
structure AssetPrice where
  symbol : String
  buy_price : Dec
  sell_price : Dec
  decimals : Nat
deriving DecidableEq

/-- `UserBalance` (balance_manager.rs, lines 28-32). -/
structure UserBalance where
  usd_balance : Dec
  asset_balances : List (String × (Dec × Nat))
deriving DecidableEq

/-- `LiquidationEntry` (balance_manager.rs, lines 34-39). -/
structure LiquidationEntry where
  order_id : String
  user_id : String
  liquidation_price : Dec
deriving DecidableEq

section AssocList

variable {α : Type} {β : Type} [DecidableEq α]

/-- `HashMap::get`: the value of the first binding of `k`, if any. -/
def aGet : List (α × β) → α → Option β
  | [], _ => none
  | p :: t, k => if p.1 = k then some p.2 else aGet t k

/-- `HashMap::insert`: replace the first binding of `k`, or append a new
binding. -/
def aSet : List (α × β) → α → β → List (α × β)
  | [], k, v => [(k, v)]
  | p :: t, k, v => if p.1 = k then (k, v) :: t else p :: aSet t k v

/-- `HashMap::remove`: delete the first binding of `k`. -/
def aErase : List (α × β) → α → List (α × β)
  | [], _ => []
  | p :: t, k => if p.1 = k then t else p :: aErase t k

@[simp] theorem aGet_nil (k : α) : aGet ([] : List (α × β)) k = none := rfl

@[simp] theorem aGet_cons (p : α × β) (t : List (α × β)) (k : α) :
    aGet (p :: t) k = if p.1 = k then some p.2 else aGet t k := rfl

theorem aGet_aSet_self (l : List (α × β)) (k : α) (v : β) :
    aGet (aSet l k v) k = some v := by
  induction l with
  | nil => simp [aSet]
  | cons p t ih =>
      by_cases h : p.1 = k <;> simp [aSet, h, ih]

theorem aGet_aSet_ne (l : List (α × β)) (k k2 : α) (v : β) (h : k ≠ k2) :
    aGet (aSet l k v) k2 = aGet l k2 := by
  induction l with
  | nil => simp [aSet, aGet, h]
  | cons p t ih =>
      by_cases hp : p.1 = k
      · subst hp; simp [aSet, aGet, h]
      · simp [aSet, hp, aGet, ih]

theorem aGet_aErase_ne (l : List (α × β)) (k k2 : α) (h : k ≠ k2) :
    aGet (aErase l k) k2 = aGet l k2 := by
  induction l with
  | nil => simp [aErase]
  | cons p t ih =>
      by_cases hp : p.1 = k
      · subst hp; simp [aErase, aGet, h]
      · simp [aErase, hp, aGet, ih]

theorem aErase_of_not_mem (l : List (α × β)) (k : α) (h : aGet l k = none) :
    aErase l k = l := by
  induction l with
  | nil => rfl
  | cons p t ih =>
      by_cases hp : p.1 = k
      · simp [aGet, hp] at h
      · simp [aGet, hp] at h
        simp [aErase, hp, ih h]

theorem aGet_mem {l : List (α × β)} {k : α} {v : β} (h : aGet l k = some v) :
    (k, v) ∈ l := by
  induction l with
  | nil => simp [aGet] at h
  | cons p t ih =>
      obtain ⟨a, b⟩ := p
      by_cases hp : a = k
      · simp [aGet, hp] at h
        subst hp
        subst h
        exact List.mem_cons_self _ _
      · simp [aGet, hp] at h
        exact List.mem_cons_of_mem _ (ih h)

theorem mem_aSet {l : List (α × β)} {k : α} {v : β} {p : α × β}
    (h : p ∈ aSet l k v) : p = (k, v) ∨ p ∈ l := by
  induction l with
  | nil => simpa [aSet] using h
  | cons q t ih =>
      by_cases hq : q.1 = k
      · simp [aSet, hq] at h
        rcases h with h | h
        · exact Or.inl h
        · exact Or.inr (List.mem_cons_of_mem _ h)
      · simp [aSet, hq] at h
        rcases h with h | h
        · exact Or.inr (by simp [h])
        · rcases ih h with h2 | h2
          · exact Or.inl h2
          · exact Or.inr (List.mem_cons_of_mem _ h2)

theorem mem_aErase {l : List (α × β)} {k : α} {p : α × β}
    (h : p ∈ aErase l k) : p ∈ l := by
  induction l with
  | nil => simpa [aErase] using h
  | cons q t ih =>
      by_cases hq : q.1 = k
      · simp [aErase, hq] at h
        exact List.mem_cons_of_mem _ h
      · simp [aErase, hq] at h
        rcases h with h | h
        · simp [h]
        · exact List.mem_cons_of_mem _ (ih h)

/-- Fold of a value projection over an association list (used for the
conservation sums). -/
def sumBy (f : β → Dec) : List (α × β) → Dec
  | [] => 0
  | p :: t => f p.2 + sumBy f t

@[simp] theorem sumBy_nil (f : β → Dec) : sumBy f ([] : List (α × β)) = 0 := rfl

@[simp] theorem sumBy_cons (f : β → Dec) (p : α × β) (t : List (α × β)) :
    sumBy f (p :: t) = f p.2 + sumBy f t := rfl

theorem sumBy_aSet_new (f : β → Dec) (l : List (α × β)) (k : α) (v : β)
    (h : aGet l k = none) : sumBy f (aSet l k v) = sumBy f l + f v := by
  induction l with
  | nil => simp [aSet]
  | cons p t ih =>
      by_cases hp : p.1 = k
      · simp [aGet, hp] at h
      · simp [aGet, hp] at h
        simp [aSet, hp, ih h]
        ring

theorem sumBy_aSet_old (f : β → Dec) (l : List (α × β)) (k : α) (v w : β)
    (h : aGet l k = some w) :
    sumBy f (aSet l k v) = sumBy f l - f w + f v := by
  induction l with
  | nil => simp [aGet] at h
  | cons p t ih =>
      by_cases hp : p.1 = k
      · simp [aGet, hp] at h
        simp [aSet, hp, h]
        ring
      · simp [aGet, hp] at h
        simp [aSet, hp, ih h]
        ring

theorem sumBy_aErase (f : β → Dec) (l : List (α × β)) (k : α) (w : β)
    (h : aGet l k = some w) :
    sumBy f (aErase l k) = sumBy f l - f w := by
  induction l with
  | nil => simp [aGet] at h
  | cons p t ih =>
      by_cases hp : p.1 = k
      · simp [aGet, hp] at h
        simp [aErase, hp, h]
      · simp [aGet, hp] at h
        simp [aErase, hp, ih h]
        ring

end AssocList

/-- The liquidation index: `asset → (liquidation price → bucket of entries)`
(balance_manager.rs, line 48). -/
abbrev LiqMap := List (String × List (Dec × List LiquidationEntry))

/-- The five tables of `BalanceManager` (balance_manager.rs, lines 41-50). -/
structure BalanceManager where
  users : List (String × UserBalance)
  orders_by_id : List (String × Order)
  orders_by_user : List (String × List String)
  liquidation_map : LiqMap
  asset_prices : List (String × AssetPrice)
deriving DecidableEq

/-- `BalanceManager::new` (lines 53-61). -/
def BalanceManager.new : BalanceManager :=
  { users := [], orders_by_id := [], orders_by_user := [],
    liquidation_map := [], asset_prices := [] }

/-- The balance a fresh user is initialised with (lines 68, 91). -/
def freshUserBalance : UserBalance :=
  { usd_balance := 5000, asset_balances := [] }

/-- `BalanceManager::get_or_create_user` (lines 63-72): returns a clone of
the (possibly just created) user and the updated state. -/
def get_or_create_user (st : BalanceManager) (user_id : String) :
    UserBalance × BalanceManager :=
  match aGet st.users user_id with
  | some u => (u, st)
  | none =>
      (freshUserBalance,
        { st with users := aSet st.users user_id freshUserBalance })

/-- `BalanceManager::update_price` (lines 74-77). -/
def update_price (st : BalanceManager) (p : AssetPrice) : BalanceManager :=
  { st with asset_prices := aSet st.asset_prices p.symbol p }

/-- `BalanceManager::get_price` (lines 79-82). -/
def get_price (st : BalanceManager) (symbol : String) : Option AssetPrice :=
  aGet st.asset_prices symbol

/-- `BalanceManager::calculate_pnl` (lines 324-330). -/
def calculate_pnl (o : Order) (current_price : Dec) : Dec :=
  if o.order_type = "long" then (current_price - o.open_price) * o.quantity
  else (o.open_price - current_price) * o.quantity

/-- `2^32`, the `u32` modulus. -/
def U32MOD : Nat := 4294967296

/-- `BalanceManager::calculate_liquidation_price` (lines 332-342).
`Decimal::from(90) / Decimal::from(order.leverage * 100)` panics when the
(wrapped) `u32` product is zero; the panic is `none`. -/
def calculate_liquidation_price (o : Order) : Option Dec :=
  let d : Nat := (o.leverage * 100) % U32MOD
  if d = 0 then none
  else
    let liquidation_threshold : Dec := 90 / (d : Dec)
    if o.order_type = "long" then
      some (o.open_price * (1 - liquidation_threshold))
    else
      some (o.open_price * (1 + liquidation_threshold))

/-- Appending a liquidation entry (balance_manager.rs, lines 140-159):
`entry(asset).or_insert(BTreeMap) → entry(price).or_insert(Vec) → push`. -/
def addLiqEntry (m : LiqMap) (asset : String) (price : Dec)
    (e : LiquidationEntry) : LiqMap :=
  let assetLiq := (aGet m asset).getD []
  let bucket := (aGet assetLiq price).getD []
  aSet m asset (aSet assetLiq price (bucket ++ [e]))

/-- Part of `create_order` after the user has been ensured (lines 95-161).
`user_balance` is the current balance of `order.user_id` in `st.users`.
`none` models a `Decimal` division-by-zero panic. -/
def create_order_checked (st : BalanceManager) (user_balance : UserBalance)
    (order : Order) : Option (BalanceManager × Option String) :=
  let required_margin := order.margin
  if user_balance.usd_balance < required_margin then
    some (st, some "Insufficient balance")
  else
    match aGet st.asset_prices order.asset with
    | none => some (st, some "Asset price not available")
    | some p =>
        let current_price :=
          if order.order_type = "long" then p.buy_price else p.sell_price
        if current_price = 0 then none
        else
          let order := { order with
            open_price := current_price,
            quantity := order.margin * (order.leverage : Dec) / current_price }
          match calculate_liquidation_price order with
          | none => none
          | some liquidation_price =>
              let debited := { user_balance with
                usd_balance := user_balance.usd_balance - required_margin }
              let users2 := aSet st.users order.user_id debited
              let st := { st with users := users2 }
              let orders2 := aSet st.orders_by_id order.order_id order
              let st := { st with orders_by_id := orders2 }
              let userList :=
                (aGet st.orders_by_user order.user_id).getD [] ++ [order.order_id]
              let byUser2 := aSet st.orders_by_user order.user_id userList
              let st := { st with orders_by_user := byUser2 }
              let liquidation_entry : LiquidationEntry :=
                { order_id := order.order_id, user_id := order.user_id,
                  liquidation_price := liquidation_price }
              let lm2 := addLiqEntry st.liquidation_map order.asset
                liquidation_price liquidation_entry
              let st := { st with liquidation_map := lm2 }
              some (st, none)

/-- `BalanceManager::create_order` (lines 84-162).  The result is
`some (post_state, none)` for `Ok(())`, `some (post_state, some msg)` for
`Err(msg)`, and `none` for a panic. -/
def create_order (st : BalanceManager) (order : Order) :
    Option (BalanceManager × Option String) :=
  match aGet st.users order.user_id with
  | some ub => create_order_checked st ub order
  | none =>
      create_order_checked
        { st with users := aSet st.users order.user_id freshUserBalance }
        freshUserBalance order

/-- Removal of an order id from a user's order list (lines 181-186 and
297-302): `retain`, then drop the bucket if it became empty. -/
def removeUserOrder (m : List (String × List String))
    (user_id order_id : String) : List (String × List String) :=
  match aGet m user_id with
  | none => m
  | some user_orders =>
      let remaining := user_orders.filter (fun id => id != order_id)
      if remaining = [] then aErase m user_id else aSet m user_id remaining

/-- The inner bucket clean-up of the liquidation-map removal (lines
193-198 and 309-314): filter the order's id out of the bucket at the
recomputed price key; drop the bucket if it became empty. -/
def removeLiqBucket (assetLiq : List (Dec × List LiquidationEntry))
    (liquidation_price : Dec) (order_id : String) :
    List (Dec × List LiquidationEntry) :=
  match aGet assetLiq liquidation_price with
  | none => assetLiq
  | some entries =>
      let entries2 := entries.filter (fun e => e.order_id != order_id)
      if entries2 = [] then aErase assetLiq liquidation_price
      else aSet assetLiq liquidation_price entries2

/-- Removal of an order's entry from the liquidation map (lines 188-203 and
304-319).  The liquidation price is recomputed inside the branch where the
asset has buckets, exactly as in the source, so the potential
division-by-zero panic (`none`) only occurs there. -/
def removeLiqForOrder (m : LiqMap) (order : Order) (order_id : String) :
    Option LiqMap :=
  match aGet m order.asset with
  | none => some m
  | some assetLiq =>
      match calculate_liquidation_price order with
      | none => none
      | some liquidation_price =>
          let assetLiq2 := removeLiqBucket assetLiq liquidation_price order_id
          some (if assetLiq2 = [] then aErase m order.asset
                else aSet m order.asset assetLiq2)

/-- `BalanceManager::close_order` (lines 164-242).  `Ok((pnl, msg))` is
modelled as `Except.ok (pnl, current_price)`: the source's success message
is `format!("Order closed at price {}", current_price)`.  Errors carry the
post state, since the source mutates the three order indices before the
user and price lookups. -/
def close_order (st : BalanceManager) (order_id : String) :
    Option (BalanceManager × Except String (Dec × Dec)) :=
  match aGet st.orders_by_id order_id with
  | none => some (st, Except.error "Order not found")
  | some order =>
      let st1 := { st with orders_by_id := aErase st.orders_by_id order_id }
      let byUser2 := removeUserOrder st1.orders_by_user order.user_id order_id
      let st2 := { st1 with orders_by_user := byUser2 }
      match removeLiqForOrder st2.liquidation_map order order_id with
      | none => none
      | some lm =>
          let st3 := { st2 with liquidation_map := lm }
          match aGet st3.users order.user_id with
          | none => some (st3, Except.error "User not found")
          | some user_balance =>
              match aGet st3.asset_prices order.asset with
              | none => some (st3, Except.error "Asset price not available")
              | some price_info =>
                  let current_price :=
                    if order.order_type = "long" then price_info.sell_price
                    else price_info.buy_price
                  let pnl := calculate_pnl order current_price
                  let close_amount := order.margin + pnl
                  let credited := { user_balance with
                    usd_balance := user_balance.usd_balance + close_amount }
                  let users2 := aSet st3.users order.user_id credited
                  let st4 := { st3 with users := users2 }
                  some (st4, Except.ok (pnl, current_price))

/-- `BalanceManager::liquidate_order` (lines 288-322): index removal as in
`close_order`, and no credit to the user. -/
def liquidate_order (st : BalanceManager) (order_id : String) :
    Option (BalanceManager × Option String) :=
  match aGet st.orders_by_id order_id with
  | none => some (st, some "Order not found")
  | some order =>
      let st1 := { st with orders_by_id := aErase st.orders_by_id order_id }
      let byUser2 := removeUserOrder st1.orders_by_user order.user_id order_id
      let st2 := { st1 with orders_by_user := byUser2 }
      match removeLiqForOrder st2.liquidation_map order order_id with
      | none => none
      | some lm => some ({ st2 with liquidation_map := lm }, none)

/-- The `entries.iter().any(...)` trigger test of `check_liquidations`
(lines 258-272).  Sequential model: the `try_read` of `orders_by_id`
always succeeds. -/
def bucketTriggers (st : BalanceManager) (current_price liquidation_price : Dec)
    (entries : List LiquidationEntry) : Bool :=
  entries.any (fun entry =>
    match aGet st.orders_by_id entry.order_id with
    | some o =>
        if o.order_type = "long" then decide (current_price ≤ liquidation_price)
        else decide (liquidation_price ≤ current_price)
    | none => false)

/-- `BalanceManager::check_liquidations` (lines 244-286): collect
`(order_id, user_id)` from every bucket that triggers at the mid price.
The `price_key.parse::<Decimal>()` round-trip of the stored key is the
identity in the model. -/
def check_liquidations (st : BalanceManager) : List (String × String) :=
  st.liquidation_map.flatMap (fun al =>
    match aGet st.asset_prices al.1 with
    | none => []
    | some price_info =>
        let current_price := (price_info.buy_price + price_info.sell_price) / 2
        al.2.flatMap (fun bucket =>
          if bucketTriggers st current_price bucket.1 bucket.2 then
            bucket.2.map (fun e => (e.order_id, e.user_id))
          else []))

/-- The liquidation loop body of `main.rs`: `liquidate_order` on each
collected id, errors logged and ignored. -/
def liquidateAll (st : BalanceManager) :
    List (String × String) → Option BalanceManager
  | [] => some st
  | (oid, _) :: rest =>
      match liquidate_order st oid with
      | none => none
      | some (st2, _) => liquidateAll st2 rest

/-- One tick of the liquidation checker task of `main.rs`:
`check_liquidations`, then `liquidate_order` on each collected id. -/
def scan_tick (st : BalanceManager) : Option BalanceManager :=
  liquidateAll st (check_liquidations st)

/-- `BalanceManager::get_user_balance` (lines 372-383). -/
def get_user_balance (st : BalanceManager) (user_id : String) :
    Except String (List (String × (Dec × Nat))) :=
  match aGet st.users user_id with
  | some user_balance => Except.ok user_balance.asset_balances
  | none => Except.ok []

/-- The `Processor` state relevant to snapshots (processor.rs, lines
16-20): the balance manager plus `last_processed_id`. -/
structure ProcState where
  bm : BalanceManager
  last_processed_id : String
deriving DecidableEq

/-- A parsed `snapshot.json`.  Each section is `none` when the key is
absent or its value fails to deserialize (each section of `load_snapshot`
is guarded by its own `if let Ok(..)`); `orders_legacy` is the
backward-compatibility `"orders"` key. -/
structure SnapshotFile where
  users : Option (List (String × UserBalance))
  orders_by_id : Option (List (String × Order))
  orders_by_user : Option (List (String × List String))
  liquidation_map : Option LiqMap
  orders_legacy : Option (List (String × List Order))
  prices : Option (List (String × AssetPrice))
  last_processed_id : Option String
  timestamp : Int
deriving DecidableEq

/-- `Processor::save_snapshot` (processor.rs, lines 168-200): serialize
all five tables and the last processed id; the legacy key is not written. -/
def save_snapshot (ps : ProcState) (now : Int) : SnapshotFile :=
  { users := some ps.bm.users,
    orders_by_id := some ps.bm.orders_by_id,
    orders_by_user := some ps.bm.orders_by_user,
    liquidation_map := some ps.bm.liquidation_map,
    orders_legacy := none,
    prices := some ps.bm.asset_prices,
    last_processed_id := some ps.last_processed_id,
    timestamp := now }

/-- One legacy order inserted into the three indices (processor.rs, lines
104-129).  `Processor::calculate_liquidation_price` (lines 202-210) is the
same function as the balance manager's. -/
def insertLegacyOrder (st : BalanceManager) (o : Order) :
    Option BalanceManager :=
  let st1 := { st with orders_by_id := aSet st.orders_by_id o.order_id o }
  let userList := (aGet st1.orders_by_user o.user_id).getD [] ++ [o.order_id]
  let byUser2 := aSet st1.orders_by_user o.user_id userList
  let st2 := { st1 with orders_by_user := byUser2 }
  match calculate_liquidation_price o with
  | none => none
  | some lp =>
      let e : LiquidationEntry :=
        { order_id := o.order_id, user_id := o.user_id,
          liquidation_price := lp }
      some { st2 with liquidation_map := addLiqEntry st2.liquidation_map o.asset lp e }

/-- Legacy conversion over one user's order list. -/
def insertLegacyOrders (st : BalanceManager) :
    List Order → Option BalanceManager
  | [] => some st
  | o :: t =>
      match insertLegacyOrder st o with
      | none => none
      | some st2 => insertLegacyOrders st2 t

/-- Legacy conversion over the whole `"orders"` map (lines 103-130). -/
def insertLegacyAll (st : BalanceManager) :
    List (String × List Order) → Option BalanceManager
  | [] => some st
  | p :: t =>
      match insertLegacyOrders st p.2 with
      | none => none
      | some st2 => insertLegacyAll st2 t

/-- `Processor::load_snapshot` (processor.rs, lines 34-166) on a parsed
snapshot file: each present section overwrites the corresponding table of
`ps`, in source order; the legacy section additionally rebuilds the three
order indices (and may panic, `none`). -/
def load_snapshot (f : SnapshotFile) (ps : ProcState) : Option ProcState :=
  let bm0 := ps.bm
  let bm1 := match f.users with
    | some u => { bm0 with users := u }
    | none => bm0
  let bm2 := match f.orders_by_id with
    | some m => { bm1 with orders_by_id := m }
    | none => bm1
  let bm3 := match f.orders_by_user with
    | some m => { bm2 with orders_by_user := m }
    | none => bm2
  let bm4 := match f.liquidation_map with
    | some m => { bm3 with liquidation_map := m }
    | none => bm3
  match (match f.orders_legacy with
         | none => some bm4
         | some legacy => insertLegacyAll bm4 legacy) with
  | none => none
  | some bm5 =>
      let bm6 := match f.prices with
        | some m => { bm5 with asset_prices := m }
        | none => bm5
      let lid := match f.last_processed_id with
        | some s => s
        | none => ps.last_processed_id
      some { bm := bm6, last_processed_id := lid }

/-- A fresh processor: `BalanceManager::new` and initial
`last_processed_id = "$"` (processor.rs, line 30). -/
def freshProc : ProcState :=
  { bm := BalanceManager.new, last_processed_id := "$" }

/-- Engine state instrumented with two specification-only (ghost)
accumulators for the conservation invariant: `realized_pnl_paid` is
`Σ pnl` over successful closes minus `Σ margin` over successful
liquidations, `users_created` counts users ever created. -/
structure Engine where
  bm : BalanceManager
  realized_pnl_paid : Dec
  users_created : Nat
deriving DecidableEq

/-- The state-mutating operations of the engine. -/
inductive Op where
  | createOrder (o : Order)
  | closeOrder (order_id : String)
  | liquidateOrder (order_id : String)
  | getOrCreateUser (user_id : String)
  | updatePrice (p : AssetPrice)
deriving DecidableEq

/-- The engine's start state. -/
def initEngine : Engine :=
  { bm := BalanceManager.new, realized_pnl_paid := 0, users_created := 0 }

/-- One committed operation; `none` models a panic.  The ghost fields are
updated from the operation's outcome: `+pnl` on a successful close,
`-margin` on a successful liquidation, `+1` user on first touch. -/
def applyOp (e : Engine) (op : Op) : Option Engine :=
  match op with
  | .getOrCreateUser uid =>
      let newCount := match aGet e.bm.users uid with
        | none => 1
        | some _ => 0
      some { e with bm := (get_or_create_user e.bm uid).2,
                    users_created := e.users_created + newCount }
  | .updatePrice p => some { e with bm := update_price e.bm p }
  | .createOrder o =>
      match create_order e.bm o with
      | none => none
      | some (st, _) =>
          let newCount := match aGet e.bm.users o.user_id with
            | none => 1
            | some _ => 0
          some { e with bm := st, users_created := e.users_created + newCount }
  | .closeOrder oid =>
      match close_order e.bm oid with
      | none => none
      | some (st, Except.ok pc) =>
          some { e with bm := st,
                        realized_pnl_paid := e.realized_pnl_paid + pc.1 }
      | some (st, Except.error _) => some { e with bm := st }
  | .liquidateOrder oid =>
      match liquidate_order e.bm oid with
      | none => none
      | some (st, none) =>
          let m := match aGet e.bm.orders_by_id oid with
            | some o => o.margin
            | none => 0
          some { e with bm := st,
                        realized_pnl_paid := e.realized_pnl_paid - m }
      | some (st, some _) => some { e with bm := st }

/-- Run a sequence of operations. -/
def applyOps (e : Engine) : List Op → Option Engine
  | [] => some e
  | op :: rest =>
      match applyOp e op with
      | none => none
      | some e2 => applyOps e2 rest

/-- Run a sequence of operations from the start state. -/
def runOps (l : List Op) : Option Engine := applyOps initEngine l

/-- The conservation sum exactly as the claim states it:
`sum(usd_balance) + sum(live margin) + realized_pnl_paid − 5000·created`. -/
def conservationClaimLhs (e : Engine) : Dec :=
  sumBy UserBalance.usd_balance e.bm.users
    + sumBy Order.margin e.bm.orders_by_id
    + e.realized_pnl_paid
    - 5000 * (e.users_created : Dec)

/-- The conservation sum with the realized-PnL term subtracted instead of
added (the amended form). -/
def Conserved (e : Engine) : Prop :=
  sumBy UserBalance.usd_balance e.bm.users
    + sumBy Order.margin e.bm.orders_by_id
    - e.realized_pnl_paid
    - 5000 * (e.users_created : Dec) = 0

/-- Every live order's owner exists and its asset has a price.  This holds
in every reachable state (users and prices are never removed) and rules
out the mutating error paths of `close_order`. -/
def OrdersSupported (st : BalanceManager) : Prop :=
  ∀ p ∈ st.orders_by_id,
    (aGet st.users (p.2 : Order).user_id).isSome
      ∧ (aGet st.asset_prices (p.2 : Order).asset).isSome

/-- The inductive invariant behind conservation. -/
def EngineInv (e : Engine) : Prop := OrdersSupported e.bm ∧ Conserved e

/-- `opFresh` is the freshness side condition of the amended claim: a
`create_order` is only issued for an order id that is not currently live.
(The source does not enforce this: a duplicate create silently overwrites
the live order, which breaks conservation.) -/
def opFresh (e : Engine) : Op → Prop
  | .createOrder o => aGet e.bm.orders_by_id o.order_id = none
  | _ => True

/-- States reachable from the start state by committed operations whose
creates use fresh order ids. -/
inductive ReachesFresh : Engine → Prop
  | init : ReachesFresh initEngine
  | step (e : Engine) (op : Op) (e2 : Engine) (h1 : ReachesFresh e)
      (h2 : opFresh e op) (h3 : applyOp e op = some e2) : ReachesFresh e2

theorem aGet_aSet_isSome {α β : Type} [DecidableEq α] (l : List (α × β))
    (k k2 : α) (v : β) (h : (aGet l k).isSome) :
    (aGet (aSet l k2 v) k).isSome := by
  by_cases hk : k2 = k
  · subst hk
    simp [aGet_aSet_self]
  · rw [aGet_aSet_ne _ _ _ _ hk]
    exact h

theorem engineInv_updatePrice (e e2 : Engine) (p : AssetPrice)
    (hinv : EngineInv e) (h : applyOp e (Op.updatePrice p) = some e2) :
    EngineInv e2 := by
  simp only [applyOp] at h
  replace h := Option.some.inj h
  subst h
  refine ⟨?_, ?_⟩
  · intro q hq
    have hq2 := hinv.1 q hq
    exact ⟨hq2.1, aGet_aSet_isSome _ _ _ _ hq2.2⟩
  · exact hinv.2

theorem engineInv_getOrCreate (e e2 : Engine) (uid : String)
    (hinv : EngineInv e) (h : applyOp e (Op.getOrCreateUser uid) = some e2) :
    EngineInv e2 := by
  simp only [applyOp] at h
  cases hu : aGet e.bm.users uid with
  | some ub =>
      simp only [get_or_create_user, hu] at h
      replace h := Option.some.inj h
      subst h
      exact hinv
  | none =>
      simp only [get_or_create_user, hu] at h
      replace h := Option.some.inj h
      subst h
      refine ⟨?_, ?_⟩
      · intro q hq
        have hq2 := hinv.1 q hq
        exact ⟨aGet_aSet_isSome _ _ _ _ hq2.1, hq2.2⟩
      · have h2 := hinv.2
        have hs := sumBy_aSet_new UserBalance.usd_balance e.bm.users uid
          freshUserBalance hu
        simp only [Conserved] at h2 ⊢
        rw [hs]
        simp only [freshUserBalance]
        push_cast
        linarith

theorem engineInv_liquidate (e e2 : Engine) (oid : String)
    (hinv : EngineInv e) (h : applyOp e (Op.liquidateOrder oid) = some e2) :
    EngineInv e2 := by
  simp only [applyOp] at h
  cases ho : aGet e.bm.orders_by_id oid with
  | none =>
      simp only [liquidate_order, ho] at h
      replace h := Option.some.inj h
      subst h
      exact hinv
  | some order =>
      simp only [liquidate_order, ho] at h
      cases hrm : removeLiqForOrder e.bm.liquidation_map order oid with
      | none =>
          simp only [hrm] at h
          exact Option.noConfusion h
      | some lm =>
          simp only [hrm] at h
          replace h := Option.some.inj h
          subst h
          refine ⟨?_, ?_⟩
          · intro q hq
            exact hinv.1 q (mem_aErase hq)
          · have h2 := hinv.2
            have hs := sumBy_aErase Order.margin e.bm.orders_by_id oid order ho
            simp only [Conserved] at h2 ⊢
            rw [hs]
            linarith

theorem engineInv_close (e e2 : Engine) (oid : String)
    (hinv : EngineInv e) (h : applyOp e (Op.closeOrder oid) = some e2) :
    EngineInv e2 := by
  simp only [applyOp] at h
  cases ho : aGet e.bm.orders_by_id oid with
  | none =>
      simp only [close_order, ho] at h
      replace h := Option.some.inj h
      subst h
      exact hinv
  | some order =>
      obtain ⟨hu, hp⟩ := hinv.1 _ (aGet_mem ho)
      obtain ⟨ub, hub⟩ := Option.isSome_iff_exists.mp hu
      obtain ⟨pinfo, hpi⟩ := Option.isSome_iff_exists.mp hp
      simp only [close_order, ho] at h
      cases hrm : removeLiqForOrder e.bm.liquidation_map order oid with
      | none =>
          simp only [hrm] at h
          exact Option.noConfusion h
      | some lm =>
          simp only [hrm, hub, hpi] at h
          replace h := Option.some.inj h
          subst h
          refine ⟨?_, ?_⟩
          · intro q hq
            have hq2 := hinv.1 q (mem_aErase hq)
            exact ⟨aGet_aSet_isSome _ _ _ _ hq2.1, hq2.2⟩
          · have h2 := hinv.2
            have hub2 : aGet e.bm.users order.user_id = some ub := hub
            simp only [Conserved] at h2 ⊢
            rw [sumBy_aErase Order.margin e.bm.orders_by_id oid order ho,
              sumBy_aSet_old UserBalance.usd_balance e.bm.users
                order.user_id _ ub hub2]
            simp only []
            linarith

theorem engineInv_create (e e2 : Engine) (o : Order)
    (hfresh : aGet e.bm.orders_by_id o.order_id = none)
    (hinv : EngineInv e) (h : applyOp e (Op.createOrder o) = some e2) :
    EngineInv e2 := by
  simp only [applyOp] at h
  cases hu : aGet e.bm.users o.user_id with
  | some ub =>
      simp only [create_order, hu] at h
      by_cases hb : ub.usd_balance < o.margin
      · simp only [create_order_checked, if_pos hb] at h
        replace h := Option.some.inj h
        subst h
        exact hinv
      · simp only [create_order_checked, if_neg hb] at h
        cases hpr : aGet e.bm.asset_prices o.asset with
        | none =>
            simp only [hpr] at h
            replace h := Option.some.inj h
            subst h
            exact hinv
        | some p =>
            simp only [hpr] at h
            by_cases hz : (if o.order_type = "long" then p.buy_price
                else p.sell_price) = 0
            · simp only [if_pos hz] at h
              exact Option.noConfusion h
            · simp only [if_neg hz] at h
              cases hlp : calculate_liquidation_price
                  { o with
                    open_price := if o.order_type = "long" then p.buy_price
                      else p.sell_price,
                    quantity := o.margin * (o.leverage : Dec)
                      / (if o.order_type = "long" then p.buy_price
                         else p.sell_price) } with
              | none =>
                  simp only [hlp] at h
                  exact Option.noConfusion h
              | some lp =>
                  simp only [hlp] at h
                  replace h := Option.some.inj h
                  subst h
                  refine ⟨?_, ?_⟩
                  · intro q hq
                    rcases mem_aSet hq with hq2 | hq2
                    · subst hq2
                      constructor
                      · simpa using aGet_aSet_isSome e.bm.users o.user_id
                          o.user_id _ (by simp [hu])
                      · simpa using Option.isSome_iff_exists.mpr ⟨p, hpr⟩
                    · have hq3 := hinv.1 q hq2
                      exact ⟨aGet_aSet_isSome _ _ _ _ hq3.1, hq3.2⟩
                  · have h2 := hinv.2
                    simp only [Conserved] at h2 ⊢
                    rw [sumBy_aSet_old UserBalance.usd_balance
                        e.bm.users o.user_id _ ub hu,
                      sumBy_aSet_new Order.margin e.bm.orders_by_id
                        o.order_id _ hfresh]
                    push_cast
                    linarith
  | none =>
      simp only [create_order, hu] at h
      have hu1 : aGet (aSet e.bm.users o.user_id freshUserBalance) o.user_id
          = some freshUserBalance := aGet_aSet_self _ _ _
      by_cases hb : freshUserBalance.usd_balance < o.margin
      · simp only [create_order_checked, if_pos hb] at h
        replace h := Option.some.inj h
        subst h
        refine ⟨?_, ?_⟩
        · intro q hq
          have hq2 := hinv.1 q hq
          exact ⟨aGet_aSet_isSome _ _ _ _ hq2.1, hq2.2⟩
        · have h2 := hinv.2
          have hs := sumBy_aSet_new UserBalance.usd_balance e.bm.users
            o.user_id freshUserBalance hu
          simp only [Conserved] at h2 ⊢
          rw [hs]
          simp only [freshUserBalance]
          push_cast
          linarith
      · simp only [create_order_checked, if_neg hb] at h
        cases hpr : aGet e.bm.asset_prices o.asset with
        | none =>
            simp only [hpr] at h
            replace h := Option.some.inj h
            subst h
            refine ⟨?_, ?_⟩
            · intro q hq
              have hq2 := hinv.1 q hq
              exact ⟨aGet_aSet_isSome _ _ _ _ hq2.1, hq2.2⟩
            · have h2 := hinv.2
              have hs := sumBy_aSet_new UserBalance.usd_balance e.bm.users
                o.user_id freshUserBalance hu
              simp only [Conserved] at h2 ⊢
              rw [hs]
              simp only [freshUserBalance]
              push_cast
              linarith
        | some p =>
            simp only [hpr] at h
            by_cases hz : (if o.order_type = "long" then p.buy_price
                else p.sell_price) = 0
            · simp only [if_pos hz] at h
              exact Option.noConfusion h
            · simp only [if_neg hz] at h
              cases hlp : calculate_liquidation_price
                  { o with
                    open_price := if o.order_type = "long" then p.buy_price
                      else p.sell_price,
                    quantity := o.margin * (o.leverage : Dec)
                      / (if o.order_type = "long" then p.buy_price
                         else p.sell_price) } with
              | none =>
                  simp only [hlp] at h
                  exact Option.noConfusion h
              | some lp =>
                  simp only [hlp] at h
                  replace h := Option.some.inj h
                  subst h
                  refine ⟨?_, ?_⟩
                  · intro q hq
                    rcases mem_aSet hq with hq2 | hq2
                    · subst hq2
                      constructor
                      · simpa using aGet_aSet_isSome _ o.user_id o.user_id _
                          (by simp [hu1])
                      · simpa using Option.isSome_iff_exists.mpr ⟨p, hpr⟩
                    · have hq3 := hinv.1 q hq2
                      exact ⟨aGet_aSet_isSome _ _ _ _
                        (aGet_aSet_isSome _ _ _ _ hq3.1), hq3.2⟩
                  · have h2 := hinv.2
                    simp only [Conserved] at h2 ⊢
                    rw [sumBy_aSet_old UserBalance.usd_balance
                        (aSet e.bm.users o.user_id freshUserBalance) o.user_id
                        _ freshUserBalance hu1,
                      sumBy_aSet_new Order.margin e.bm.orders_by_id
                        o.order_id _ hfresh,
                      sumBy_aSet_new UserBalance.usd_balance
                        e.bm.users o.user_id freshUserBalance hu]
                    simp only [freshUserBalance]
                    push_cast
                    linarith

theorem engineInv_of_reaches (e : Engine) (h : ReachesFresh e) :
    EngineInv e := by
  induction h with
  | init =>
      refine ⟨?_, ?_⟩
      · intro q hq
        simp [initEngine, BalanceManager.new] at hq
      · simp [Conserved, initEngine, BalanceManager.new]
  | step e op e2 h1 h2 h3 ih =>
      cases op with
      | createOrder o => exact engineInv_create e e2 o h2 ih h3
      | closeOrder oid => exact engineInv_close e e2 oid ih h3
      | liquidateOrder oid => exact engineInv_liquidate e e2 oid ih h3
      | getOrCreateUser uid => exact engineInv_getOrCreate e e2 uid ih h3
      | updatePrice p => exact engineInv_updatePrice e e2 p ih h3

/-- The spec's demo price: BTC quoted at buy 100 / sell 99. -/
def demoPrice : AssetPrice :=
  { symbol := "BTC", buy_price := 100, sell_price := 99, decimals := 2 }

/-- A demo create request: margin 100, leverage 10, long BTC (the wire
request carries `open_price = 0`, `quantity = 0`; both are overwritten). -/
def demoOrderReq : Order :=
  { order_id := "o1", user_id := "u1", asset := "BTC", order_type := "long",
    margin := 100, leverage := 10, open_price := 0, quantity := 0,
    timestamp := 1 }

/-- The live order stored after creating `demoOrderReq` at `demoPrice`. -/
def demoOrderLive : Order :=
  { demoOrderReq with open_price := 100, quantity := 10 }

/-- A price whose sell side is above its buy side, so a long close
realizes `pnl = 10` per unit. -/
def c1Price : AssetPrice :=
  { symbol := "BTC", buy_price := 100, sell_price := 110, decimals := 2 }

/-- A leverage-1 create request. -/
def c1Order : Order := { demoOrderReq with leverage := 1 }

/-- Price update, create, profitable close. -/
def c1Trace : List Op :=
  [Op.updatePrice c1Price, Op.createOrder c1Order, Op.closeOrder "o1"]

/-- Claim C1, counterexample: after a create and a profitable close
(`pnl = 10`), the conservation sum exactly as the claim states it —
realized PnL *added* — evaluates to `20`, not `0`. -/
theorem claim_c1_counterexample :
    (runOps c1Trace).map conservationClaimLhs = some 20
      ∧ (runOps c1Trace).map conservationClaimLhs ≠ some 0 := by
  have h : (runOps c1Trace).map conservationClaimLhs = some 20 := by
    norm_num [runOps, applyOps, applyOp, c1Trace, conservationClaimLhs,
      initEngine, BalanceManager.new, update_price, create_order,
      create_order_checked, close_order, c1Price, c1Order, demoOrderReq,
      aGet, aSet, aErase, addLiqEntry, removeUserOrder, removeLiqForOrder,
      removeLiqBucket, calculate_liquidation_price, calculate_pnl, U32MOD,
      sumBy, freshUserBalance]
  refine ⟨h, ?_⟩
  intro hc
  rw [h] at hc
  exact absurd (Option.some.inj hc) (by norm_num)

/-- Claim C1 (amended): after every finite sequence of committed
operations whose creates use fresh order ids, the sum of user balances
plus the margin of live orders *minus* the realized PnL paid out
(`Σ pnl` over closes `− Σ margin` over liquidations) minus `5000` per
user ever created is zero. -/
theorem claim_c1_conservation (e : Engine) (h : ReachesFresh e) :
    sumBy UserBalance.usd_balance e.bm.users
      + sumBy Order.margin e.bm.orders_by_id
      - e.realized_pnl_paid
      - 5000 * (e.users_created : Dec) = 0 :=
  (engineInv_of_reaches e h).2

/-- The engine after `Op.updatePrice c1Price`. -/
def c1E1 : Engine :=
  { bm := { users := [], orders_by_id := [], orders_by_user := [],
            liquidation_map := [], asset_prices := [("BTC", c1Price)] },
    realized_pnl_paid := 0, users_created := 0 }

/-- The live form of `c1Order`: opened at 100 with quantity 1. -/
def c1OrderLive : Order := { c1Order with open_price := 100, quantity := 1 }

/-- The engine after additionally `Op.createOrder c1Order`
(liquidation price `100·(1 − 0.9/1) = 10`). -/
def c1E2 : Engine :=
  { bm := { users := [("u1", { usd_balance := 4900, asset_balances := [] })],
            orders_by_id := [("o1", c1OrderLive)],
            orders_by_user := [("u1", ["o1"])],
            liquidation_map := [("BTC", [(10,
              [{ order_id := "o1", user_id := "u1",
                 liquidation_price := 10 }])])],
            asset_prices := [("BTC", c1Price)] },
    realized_pnl_paid := 0, users_created := 1 }

/-- The engine after additionally `Op.closeOrder "o1"` (close at sell
110, `pnl = 10`). -/
def c1E3 : Engine :=
  { bm := { users := [("u1", { usd_balance := 5010, asset_balances := [] })],
            orders_by_id := [], orders_by_user := [], liquidation_map := [],
            asset_prices := [("BTC", c1Price)] },
    realized_pnl_paid := 10, users_created := 1 }

/-- Claim C1, witness: the amended conservation theorem applied to the
concrete three-step run `c1Trace`. -/
theorem claim_c1_conservation_witness :
    sumBy UserBalance.usd_balance c1E3.bm.users
      + sumBy Order.margin c1E3.bm.orders_by_id
      - c1E3.realized_pnl_paid
      - 5000 * (c1E3.users_created : Dec) = 0 := by
  have hs1 : applyOp initEngine (Op.updatePrice c1Price) = some c1E1 := rfl
  have hs2 : applyOp c1E1 (Op.createOrder c1Order) = some c1E2 := by
    norm_num [applyOp, create_order, create_order_checked, c1E1, c1E2,
      c1Price, c1Order, c1OrderLive, demoOrderReq, aGet, aSet, addLiqEntry,
      calculate_liquidation_price, U32MOD, freshUserBalance]
  have hs3 : applyOp c1E2 (Op.closeOrder "o1") = some c1E3 := by
    norm_num [applyOp, close_order, c1E2, c1E3, c1Price, c1Order,
      c1OrderLive, demoOrderReq, aGet, aSet, aErase, removeUserOrder,
      removeLiqForOrder, removeLiqBucket, calculate_liquidation_price,
      calculate_pnl, U32MOD]
  have hf2 : opFresh c1E1 (Op.createOrder c1Order) := by
    norm_num [opFresh, c1E1, aGet]
  have h1 : ReachesFresh c1E1 :=
    ReachesFresh.step initEngine (Op.updatePrice c1Price) c1E1
      ReachesFresh.init trivial hs1
  have h2 : ReachesFresh c1E2 :=
    ReachesFresh.step c1E1 (Op.createOrder c1Order) c1E2 h1 hf2 hs2
  have h3 : ReachesFresh c1E3 :=
    ReachesFresh.step c1E2 (Op.closeOrder "o1") c1E3 h2 trivial hs3
  exact claim_c1_conservation c1E3 h3

/-- A state holding the live order `demoOrderLive` for user `u1` but no
price entry for its asset (reachable, for instance, after a restart from
a snapshot whose `prices` section was missing or unparseable). -/
def c2State : BalanceManager :=
  { users := [("u1", { usd_balance := 4900, asset_balances := [] })],
    orders_by_id := [("o1", demoOrderLive)],
    orders_by_user := [("u1", ["o1"])],
    liquidation_map := [("BTC", [(91,
      [{ order_id := "o1", user_id := "u1", liquidation_price := 91 }])])],
    asset_prices := [] }

/-- What `close_order` leaves behind in that state: the order is gone
from all three indices although the call failed. -/
def c2Post : BalanceManager :=
  { users := [("u1", { usd_balance := 4900, asset_balances := [] })],
    orders_by_id := [], orders_by_user := [], liquidation_map := [],
    asset_prices := [] }

/-- Claim C2: a `close_order` returning `AssetPriceUnavailable` has
already removed the order from `orders_by_id`, `orders_by_user` and the
liquidation map — the failed call mutates state (and destroys the
margin), contradicting the claimed error atomicity. -/
theorem claim_c2_close_error_mutates :
    close_order c2State "o1" =
      some (c2Post, Except.error "Asset price not available")
      ∧ c2Post ≠ c2State := by
  constructor
  · norm_num [close_order, c2State, c2Post, demoOrderLive, demoOrderReq,
      aGet, aErase, aSet, removeUserOrder, removeLiqForOrder,
      removeLiqBucket, calculate_liquidation_price, U32MOD]
  · norm_num [c2Post, c2State]

/-- A state in which order id `o1` is already live, with its asset
priced. -/
def c3State : BalanceManager :=
  { users := [("u1", { usd_balance := 4900, asset_balances := [] })],
    orders_by_id := [("o1", demoOrderLive)],
    orders_by_user := [("u1", ["o1"])],
    liquidation_map := [("BTC", [(91,
      [{ order_id := "o1", user_id := "u1", liquidation_price := 91 }])])],
    asset_prices := [("BTC", demoPrice)] }

/-- The state after the duplicate create: margin debited a second time,
the order-id listed twice under the user, a second liquidation entry. -/
def c3Post : BalanceManager :=
  { users := [("u1", { usd_balance := 4800, asset_balances := [] })],
    orders_by_id := [("o1", demoOrderLive)],
    orders_by_user := [("u1", ["o1", "o1"])],
    liquidation_map := [("BTC", [(91,
      [{ order_id := "o1", user_id := "u1", liquidation_price := 91 },
       { order_id := "o1", user_id := "u1", liquidation_price := 91 }])])],
    asset_prices := [("BTC", demoPrice)] }

/-- Claim C3: `create_order` with an order id that is already live is
*not* rejected — it returns `Ok`, debits the margin again, overwrites
the stored order and duplicates the index entries, contradicting the
claimed `OrderIdTaken` rejection without mutation. -/
theorem claim_c3_duplicate_create_accepted :
    create_order c3State demoOrderReq = some (c3Post, none)
      ∧ aGet c3Post.users "u1" =
          some { usd_balance := 4800, asset_balances := [] }
      ∧ aGet c3Post.orders_by_user "u1" = some ["o1", "o1"] := by
  refine ⟨?_, ?_, ?_⟩
  · norm_num [create_order, create_order_checked, c3State, c3Post, demoPrice,
      demoOrderLive, demoOrderReq, aGet, aSet, addLiqEntry,
      calculate_liquidation_price, U32MOD]
  · norm_num [c3Post, aGet]
  · norm_num [c3Post, aGet]

/-- A state quoting BTC at price zero. -/
def c7State : BalanceManager :=
  { users := [], orders_by_id := [], orders_by_user := [],
    liquidation_map := [],
    asset_prices := [("BTC",
      { symbol := "BTC", buy_price := 0, sell_price := 0, decimals := 2 })] }

/-- Claim C7: when the quoted price is zero the quantity division
`margin · leverage / open_price` panics (modelled `none`); `create_order`
does *not* return the `AssetPriceUnavailable` error the claim promises. -/
theorem claim_c7_zero_price_panics :
    get_price c7State "BTC" ≠ none
      ∧ create_order c7State demoOrderReq = none := by
  constructor
  · simp [get_price, c7State, aGet]
  · norm_num [create_order, create_order_checked, c7State, demoOrderReq,
      aGet, aSet, freshUserBalance]

/-- An order whose `u32` product `leverage * 100` wraps: `42949673 · 100
mod 2^32 = 4`, so the stored threshold is `90/4 = 22.5`. -/
def c5Order : Order :=
  { demoOrderReq with leverage := 42949673, open_price := 100 }

/-- Claim C5, counterexample: at leverage `n = 42949673 > 0` the computed
liquidation price is `100 · (1 − 22.5) = −2150`, not the claimed
`100 · (1 − 0.9/n)`. -/
theorem claim_c5_counterexample :
    calculate_liquidation_price c5Order = some (-2150)
      ∧ ((-2150 : Dec) ≠ 100 * (1 - (9/10 : Dec) / 42949673)) := by
  constructor
  · norm_num [calculate_liquidation_price, c5Order, demoOrderReq, U32MOD]
  · norm_num

/-- Claim C5 (amended): for every order with leverage `n > 0` and
`n · 100 < 2^32`, the liquidation price is `P · (1 − t)` for a long and
`P · (1 + t)` for a short, with `t = 90/(n·100)`, and that threshold
equals `0.9/n`; e.g. `P = 100`, `n = 10`, long gives `91`. -/
theorem claim_c5_liquidation_price (o : Order) (h1 : 0 < o.leverage)
    (h2 : o.leverage * 100 < 4294967296) :
    calculate_liquidation_price o =
      some (if o.order_type = "long"
        then o.open_price * (1 - 90 / ((o.leverage : Dec) * 100))
        else o.open_price * (1 + 90 / ((o.leverage : Dec) * 100)))
      ∧ 90 / ((o.leverage : Dec) * 100) = (9/10 : Dec) / (o.leverage : Dec) := by
  have hne : o.leverage ≠ 0 := Nat.pos_iff_ne_zero.mp h1
  have hne2 : o.leverage * 100 ≠ 0 := Nat.mul_ne_zero hne (by norm_num)
  have hd : (o.leverage * 100) % U32MOD = o.leverage * 100 :=
    Nat.mod_eq_of_lt (by simpa [U32MOD] using h2)
  have hcast : ((o.leverage * 100 : Nat) : Dec) = (o.leverage : Dec) * 100 := by
    push_cast
    ring
  constructor
  · simp only [calculate_liquidation_price, hd, hne2, if_false, hcast]
    split_ifs <;> rfl
  · have hq : (o.leverage : Dec) ≠ 0 := Nat.cast_ne_zero.mpr hne
    field_simp
    ring

/-- Claim C5, witness: the amended theorem at the claim's own example,
`P = 100`, `n = 10`, long: liquidation price `91`. -/
theorem claim_c5_witness :
    calculate_liquidation_price { demoOrderReq with open_price := 100 } =
      some 91 := by
  have h := claim_c5_liquidation_price
    { demoOrderReq with open_price := 100 } (by decide) (by decide)
  rw [h.1]
  norm_num [demoOrderReq]

/-- Claim C8: saving a snapshot and loading it into a fresh processor
reproduces the same five tables and `last_processed_id`. -/
theorem claim_c8_snapshot_roundtrip (ps : ProcState) (now : Int) :
    load_snapshot (save_snapshot ps now) freshProc = some ps := by
  cases ps with
  | mk bm lid => cases bm; rfl

/-- Claim C10: `get_user_balance` always returns `Ok`; for an unknown
user it returns the empty asset-balance map.  (In the model its type
`BalanceManager → String → Except ..` already shows it cannot mutate
state; in the source it takes only a read lock.) -/
theorem claim_c10_get_user_balance (st : BalanceManager) (uid : String) :
    (∃ l, get_user_balance st uid = Except.ok l)
      ∧ (aGet st.users uid = none →
          get_user_balance st uid = Except.ok []) := by
  cases h : aGet st.users uid with
  | none =>
      refine ⟨⟨[], ?_⟩, fun _ => ?_⟩ <;> simp [get_user_balance, h]
  | some ub =>
      refine ⟨⟨ub.asset_balances, ?_⟩, fun h2 => ?_⟩
      · simp [get_user_balance, h]
      · simp [h] at h2

/-- Claim C10, witness: on the empty state and an unknown user the call
returns `Ok` with the empty map. -/
theorem claim_c10_witness :
    get_user_balance BalanceManager.new "alice" = Except.ok [] :=
  (claim_c10_get_user_balance BalanceManager.new "alice").2 rfl

/-- Claim C4: a successful `close_order` of a live order whose owner
exists and whose asset is priced settles at the sell price for a long
(buy price for a short), returns `pnl = ±(close − open)·quantity`, and
credits the owner exactly `margin + pnl`. -/
theorem claim_c4_close_settlement (st st2 : BalanceManager) (oid : String)
    (o : Order) (ub : UserBalance) (p : AssetPrice) (pnl cp : Dec)
    (ho : aGet st.orders_by_id oid = some o)
    (hu : aGet st.users o.user_id = some ub)
    (hp : aGet st.asset_prices o.asset = some p)
    (hres : close_order st oid = some (st2, Except.ok (pnl, cp))) :
    cp = (if o.order_type = "long" then p.sell_price else p.buy_price)
      ∧ pnl = (if o.order_type = "long" then (cp - o.open_price) * o.quantity
               else (o.open_price - cp) * o.quantity)
      ∧ aGet st2.users o.user_id =
          some { usd_balance := ub.usd_balance + (o.margin + pnl),
                 asset_balances := ub.asset_balances } := by
  simp only [close_order, ho] at hres
  cases hrm : removeLiqForOrder st.liquidation_map o oid with
  | none =>
      simp only [hrm] at hres
      exact Option.noConfusion hres
  | some lm =>
      simp only [hrm, hu, hp] at hres
      replace hres := Option.some.inj hres
      rw [Prod.mk.injEq] at hres
      obtain ⟨hst, hok⟩ := hres
      replace hok := Except.ok.inj hok
      rw [Prod.mk.injEq] at hok
      obtain ⟨hpnl, hcp⟩ := hok
      subst hst
      subst hpnl
      subst hcp
      refine ⟨rfl, ?_, ?_⟩
      · simp only [calculate_pnl]
      · rw [aGet_aSet_self]

/-- The price at the close of the spec's profitable-close scenario:
BTC buy 121 / sell 120. -/
def c4Price : AssetPrice :=
  { symbol := "BTC", buy_price := 121, sell_price := 120, decimals := 2 }

/-- The state holding `demoOrderLive` with BTC at `c4Price`. -/
def c4State : BalanceManager :=
  { users := [("u1", { usd_balance := 4900, asset_balances := [] })],
    orders_by_id := [("o1", demoOrderLive)],
    orders_by_user := [("u1", ["o1"])],
    liquidation_map := [("BTC", [(91,
      [{ order_id := "o1", user_id := "u1", liquidation_price := 91 }])])],
    asset_prices := [("BTC", c4Price)] }

/-- The state after closing `o1` in `c4State`: `pnl = (120−100)·10 = 200`,
balance `4900 + 100 + 200 = 5200`. -/
def c4Post : BalanceManager :=
  { users := [("u1", { usd_balance := 5200, asset_balances := [] })],
    orders_by_id := [], orders_by_user := [], liquidation_map := [],
    asset_prices := [("BTC", c4Price)] }

/-- Claim C4, witness: the settlement theorem at the spec's
close-at-profit scenario. -/
theorem claim_c4_witness :
    (120 : Dec) = (if demoOrderLive.order_type = "long" then c4Price.sell_price
        else c4Price.buy_price)
      ∧ (200 : Dec) = (if demoOrderLive.order_type = "long"
          then ((120 : Dec) - demoOrderLive.open_price) * demoOrderLive.quantity
          else (demoOrderLive.open_price - 120) * demoOrderLive.quantity)
      ∧ aGet c4Post.users demoOrderLive.user_id =
          some { usd_balance := (4900 : Dec) + (demoOrderLive.margin + 200),
                 asset_balances := [] } :=
  claim_c4_close_settlement c4State c4Post "o1" demoOrderLive
    { usd_balance := 4900, asset_balances := [] } c4Price 200 120
    (by norm_num [c4State, aGet, demoOrderLive, demoOrderReq])
    (by norm_num [c4State, aGet, demoOrderLive, demoOrderReq])
    (by norm_num [c4State, aGet, demoOrderLive, demoOrderReq])
    (by norm_num [close_order, c4State, c4Post, c4Price, demoOrderLive,
      demoOrderReq, aGet, aErase, aSet, removeUserOrder, removeLiqForOrder,
      removeLiqBucket, calculate_liquidation_price, calculate_pnl, U32MOD])

theorem create_order_checked_ignores (st : BalanceManager) (ub : UserBalance)
    (o : Order) (a b : Dec) :
    create_order_checked st ub { o with open_price := a, quantity := b } =
      create_order_checked st ub o := by
  cases o
  simp only [create_order_checked]

theorem create_order_stored (st st2 : BalanceManager) (o : Order)
    (p : AssetPrice) (hcr : create_order st o = some (st2, none))
    (hp : aGet st.asset_prices o.asset = some p) :
    aGet st2.orders_by_id o.order_id =
      some { o with
        open_price := (if o.order_type = "long" then p.buy_price
          else p.sell_price),
        quantity := o.margin * (o.leverage : Dec)
          / (if o.order_type = "long" then p.buy_price else p.sell_price) } := by
  simp only [create_order] at hcr
  cases hu : aGet st.users o.user_id with
  | some ub =>
      simp only [hu] at hcr
      simp only [create_order_checked, hp] at hcr
      by_cases hb : ub.usd_balance < o.margin
      · simp [hb] at hcr
      · simp only [if_neg hb] at hcr
        by_cases hz : (if o.order_type = "long" then p.buy_price
            else p.sell_price) = 0
        · rw [if_pos hz] at hcr
          exact Option.noConfusion hcr
        · rw [if_neg hz] at hcr
          cases hlp : calculate_liquidation_price
              { o with
                open_price := if o.order_type = "long" then p.buy_price
                  else p.sell_price,
                quantity := o.margin * (o.leverage : Dec)
                  / (if o.order_type = "long" then p.buy_price
                     else p.sell_price) } with
          | none =>
              rw [hlp] at hcr
              exact Option.noConfusion hcr
          | some lp =>
              rw [hlp] at hcr
              replace hcr := Option.some.inj hcr
              rw [Prod.mk.injEq] at hcr
              obtain ⟨hst, -⟩ := hcr
              subst hst
              exact aGet_aSet_self _ _ _
  | none =>
      simp only [hu] at hcr
      simp only [create_order_checked, hp] at hcr
      by_cases hb : freshUserBalance.usd_balance < o.margin
      · simp [hb] at hcr
      · simp only [if_neg hb] at hcr
        by_cases hz : (if o.order_type = "long" then p.buy_price
            else p.sell_price) = 0
        · rw [if_pos hz] at hcr
          exact Option.noConfusion hcr
        · rw [if_neg hz] at hcr
          cases hlp : calculate_liquidation_price
              { o with
                open_price := if o.order_type = "long" then p.buy_price
                  else p.sell_price,
                quantity := o.margin * (o.leverage : Dec)
                  / (if o.order_type = "long" then p.buy_price
                     else p.sell_price) } with
          | none =>
              rw [hlp] at hcr
              exact Option.noConfusion hcr
          | some lp =>
              rw [hlp] at hcr
              replace hcr := Option.some.inj hcr
              rw [Prod.mk.injEq] at hcr
              obtain ⟨hst, -⟩ := hcr
              subst hst
              exact aGet_aSet_self _ _ _

/-- Claim C9: `create_order` ignores the request's `open_price` and
`quantity`: two requests differing only in those fields produce the same
result, and on success the stored order carries the quoted price
(buy for long, sell for short) and `quantity = margin·leverage/price`. -/
theorem claim_c9_create_ignores_request (st : BalanceManager) (o : Order)
    (a b a2 b2 : Dec) :
    (create_order st { o with open_price := a, quantity := b } =
      create_order st { o with open_price := a2, quantity := b2 })
      ∧ (∀ st2 p, create_order st o = some (st2, none) →
          aGet st.asset_prices o.asset = some p →
          aGet st2.orders_by_id o.order_id =
            some { o with
              open_price := (if o.order_type = "long" then p.buy_price
                else p.sell_price),
              quantity := o.margin * (o.leverage : Dec)
                / (if o.order_type = "long" then p.buy_price
                   else p.sell_price) }) := by
  constructor
  · simp only [create_order]
    cases hu : aGet st.users o.user_id with
    | some ub =>
        simp only []
        rw [create_order_checked_ignores]
        conv_rhs => rw [create_order_checked_ignores]
    | none =>
        simp only []
        rw [create_order_checked_ignores]
        conv_rhs => rw [create_order_checked_ignores]
  · intro st2 p hcr hp
    exact create_order_stored st st2 o p hcr hp

/-- The fresh state holding only the BTC price `demoPrice`. -/
def c9State : BalanceManager :=
  { users := [], orders_by_id := [], orders_by_user := [],
    liquidation_map := [], asset_prices := [("BTC", demoPrice)] }

/-- The state after creating `demoOrderReq` in `c9State`. -/
def c9Post : BalanceManager :=
  { users := [("u1", { usd_balance := 4900, asset_balances := [] })],
    orders_by_id := [("o1", demoOrderLive)],
    orders_by_user := [("u1", ["o1"])],
    liquidation_map := [("BTC", [(91,
      [{ order_id := "o1", user_id := "u1", liquidation_price := 91 }])])],
    asset_prices := [("BTC", demoPrice)] }

/-- Claim C9, witness: two creates differing only in the request's
`open_price`/`quantity` coincide, and the stored order of the spec's
scenario-1 create carries `open_price = 100`, `quantity = 10`. -/
theorem claim_c9_witness :
    (create_order c9State { demoOrderReq with open_price := 7, quantity := 8 } =
      create_order c9State { demoOrderReq with open_price := 9, quantity := 11 })
      ∧ aGet c9Post.orders_by_id "o1" =
          some { demoOrderReq with
            open_price := (if demoOrderReq.order_type = "long"
              then demoPrice.buy_price else demoPrice.sell_price),
            quantity := demoOrderReq.margin * (demoOrderReq.leverage : Dec)
              / (if demoOrderReq.order_type = "long" then demoPrice.buy_price
                 else demoPrice.sell_price) } := by
  have h := claim_c9_create_ignores_request c9State demoOrderReq 7 8 9 11
  refine ⟨h.1, ?_⟩
  exact h.2 c9Post demoPrice
    (by norm_num [create_order, create_order_checked, c9State, c9Post,
      demoPrice, demoOrderLive, demoOrderReq, aGet, aSet, addLiqEntry,
      calculate_liquidation_price, U32MOD, freshUserBalance])
    (by norm_num [c9State, aGet, demoOrderReq])

/-- Duplicate-free keys: what the `HashMap`/`BTreeMap` structures
guarantee and the association-list model states explicitly. -/
def KeysNodup {α β : Type} [DecidableEq α] (l : List (α × β)) : Prop :=
  (l.map Prod.fst).Nodup

theorem aGet_none_of_not_mem_keys {α β : Type} [DecidableEq α]
    {l : List (α × β)} {k : α} (h : k ∉ l.map Prod.fst) :
    aGet l k = none := by
  induction l with
  | nil => rfl
  | cons p t ih =>
      simp only [List.map_cons, List.mem_cons] at h
      push_neg at h
      have hp : ¬ p.1 = k := fun hp => h.1 hp.symm
      simp [aGet, hp, ih h.2]

theorem aGet_aErase_self {α β : Type} [DecidableEq α]
    (l : List (α × β)) (k : α) (h : KeysNodup l) :
    aGet (aErase l k) k = none := by
  induction l with
  | nil => rfl
  | cons p t ih =>
      simp only [KeysNodup, List.map_cons, List.nodup_cons] at h
      by_cases hp : p.1 = k
      · subst hp
        simp only [aErase, if_pos rfl]
        exact aGet_none_of_not_mem_keys h.1
      · simp [aErase, hp, aGet, ih h.2]

theorem mem_keys_aSet {α β : Type} [DecidableEq α]
    {l : List (α × β)} {k a : α} {v : β}
    (h : a ∈ (aSet l k v).map Prod.fst) :
    a = k ∨ a ∈ l.map Prod.fst := by
  induction l with
  | nil => simpa [aSet] using h
  | cons p t ih =>
      by_cases hp : p.1 = k
      · simp only [aSet, if_pos hp, List.map_cons, List.mem_cons] at h
        rcases h with h | h
        · exact Or.inl h
        · exact Or.inr (by simp [List.mem_cons]; right; simpa using h)
      · simp only [aSet, if_neg hp, List.map_cons, List.mem_cons] at h
        rcases h with h | h
        · exact Or.inr (by simp [h])
        · rcases ih h with h2 | h2
          · exact Or.inl h2
          · exact Or.inr (by simp [List.mem_cons]; right; simpa using h2)

theorem keysNodup_aErase {α β : Type} [DecidableEq α]
    (l : List (α × β)) (k : α) (h : KeysNodup l) :
    KeysNodup (aErase l k) := by
  induction l with
  | nil => exact h
  | cons p t ih =>
      simp only [KeysNodup, List.map_cons, List.nodup_cons] at h
      by_cases hp : p.1 = k
      · simpa [aErase, hp, KeysNodup] using h.2
      · have h2 := ih h.2
        simp only [aErase, if_neg hp, KeysNodup, List.map_cons,
          List.nodup_cons]
        refine ⟨?_, h2⟩
        intro hmem
        simp only [List.mem_map] at hmem
        obtain ⟨q, hq, hqa⟩ := hmem
        exact h.1 (List.mem_map.mpr ⟨q, mem_aErase hq, hqa⟩)

theorem keysNodup_aSet {α β : Type} [DecidableEq α]
    (l : List (α × β)) (k : α) (v : β) (h : KeysNodup l) :
    KeysNodup (aSet l k v) := by
  induction l with
  | nil => simp [aSet, KeysNodup]
  | cons p t ih =>
      simp only [KeysNodup, List.map_cons, List.nodup_cons] at h
      by_cases hp : p.1 = k
      · subst hp
        have hset : aSet (p :: t) p.1 v = (p.1, v) :: t := by
          simp [aSet]
        rw [hset]
        simp only [KeysNodup, List.map_cons, List.nodup_cons]
        exact h
      · have h2 := ih h.2
        simp only [aSet, if_neg hp, KeysNodup, List.map_cons,
          List.nodup_cons]
        refine ⟨?_, h2⟩
        intro hmem
        rcases mem_keys_aSet hmem with h3 | h3
        · exact hp h3
        · exact h.1 h3

/-- Key-uniqueness of the three order indices (outer and inner maps);
holds for every state the engine actually builds. -/
def WellIndexed (st : BalanceManager) : Prop :=
  KeysNodup st.orders_by_id ∧ KeysNodup st.orders_by_user
    ∧ KeysNodup st.liquidation_map
    ∧ ∀ q ∈ st.liquidation_map, KeysNodup q.2

/-- No entry for `oid` remains in the `asset` bucket at price `L`. -/
def NoLiqEntry (m : LiqMap) (asset : String) (L : Dec) (oid : String) :
    Prop :=
  ∀ al, aGet m asset = some al → ∀ b, aGet al L = some b →
    ∀ en ∈ b, en.order_id ≠ oid

/-- The order is gone from all three indices: not live, absent from its
owner's order list, and absent from its liquidation bucket. -/
def GoneFromIndices (st : BalanceManager) (o : Order) (L : Dec) : Prop :=
  aGet st.orders_by_id o.order_id = none
    ∧ (∀ l, aGet st.orders_by_user o.user_id = some l → o.order_id ∉ l)
    ∧ NoLiqEntry st.liquidation_map o.asset L o.order_id

theorem removeUserOrder_establishes (m : List (String × List String))
    (uid oid : String) (hn : KeysNodup m) :
    ∀ l, aGet (removeUserOrder m uid oid) uid = some l → oid ∉ l := by
  intro l hl
  unfold removeUserOrder at hl
  cases hg : aGet m uid with
  | none =>
      rw [hg] at hl
      simp only [] at hl
      rw [hg] at hl
      exact Option.noConfusion hl
  | some l0 =>
      rw [hg] at hl
      simp only [] at hl
      by_cases hr : l0.filter (fun id => id != oid) = []
      · rw [if_pos hr] at hl
        rw [aGet_aErase_self m uid hn] at hl
        exact Option.noConfusion hl
      · rw [if_neg hr, aGet_aSet_self] at hl
        replace hl := Option.some.inj hl
        subst hl
        intro hmem
        have := (List.mem_filter.mp hmem).2
        simp at this

theorem removeUserOrder_preserves (m : List (String × List String))
    (uid oid uid2 oid2 : String) (hn : KeysNodup m)
    (h : ∀ l, aGet m uid = some l → oid ∉ l) :
    ∀ l, aGet (removeUserOrder m uid2 oid2) uid = some l → oid ∉ l := by
  intro l hl
  unfold removeUserOrder at hl
  cases hg : aGet m uid2 with
  | none =>
      rw [hg] at hl
      exact h l hl
  | some l0 =>
      rw [hg] at hl
      simp only [] at hl
      by_cases huid : uid2 = uid
      · subst huid
        by_cases hr : l0.filter (fun id => id != oid2) = []
        · rw [if_pos hr] at hl
          rw [aGet_aErase_self m uid2 hn] at hl
          exact Option.noConfusion hl
        · rw [if_neg hr, aGet_aSet_self] at hl
          replace hl := Option.some.inj hl
          subst hl
          intro hmem
          exact h l0 hg ((List.mem_filter.mp hmem).1)
      · by_cases hr : l0.filter (fun id => id != oid2) = []
        · rw [if_pos hr, aGet_aErase_ne _ _ _ huid] at hl
          exact h l hl
        · rw [if_neg hr, aGet_aSet_ne _ _ _ _ huid] at hl
          exact h l hl

theorem removeUserOrder_keysNodup (m : List (String × List String))
    (uid oid : String) (hn : KeysNodup m) :
    KeysNodup (removeUserOrder m uid oid) := by
  unfold removeUserOrder
  cases aGet m uid with
  | none => exact hn
  | some l0 =>
      simp only []
      by_cases hr : l0.filter (fun id => id != oid) = []
      · rw [if_pos hr]
        exact keysNodup_aErase _ _ hn
      · rw [if_neg hr]
        exact keysNodup_aSet _ _ _ hn

theorem removeLiqBucket_establishes
    (assetLiq : List (Dec × List LiquidationEntry)) (L : Dec) (oid : String)
    (hn : KeysNodup assetLiq) :
    ∀ b, aGet (removeLiqBucket assetLiq L oid) L = some b →
      ∀ en ∈ b, en.order_id ≠ oid := by
  intro b hb en hen
  unfold removeLiqBucket at hb
  cases hg : aGet assetLiq L with
  | none =>
      rw [hg] at hb
      simp only [] at hb
      rw [hg] at hb
      exact Option.noConfusion hb
  | some entries =>
      rw [hg] at hb
      simp only [] at hb
      by_cases hr : entries.filter (fun e => e.order_id != oid) = []
      · rw [if_pos hr, aGet_aErase_self _ _ hn] at hb
        exact Option.noConfusion hb
      · rw [if_neg hr, aGet_aSet_self] at hb
        replace hb := Option.some.inj hb
        subst hb
        have h2 := (List.mem_filter.mp hen).2
        simpa using h2

theorem removeLiqBucket_preserves
    (assetLiq : List (Dec × List LiquidationEntry)) (L L2 : Dec)
    (oid oid2 : String) (hn : KeysNodup assetLiq)
    (h : ∀ b, aGet assetLiq L = some b → ∀ en ∈ b, en.order_id ≠ oid) :
    ∀ b, aGet (removeLiqBucket assetLiq L2 oid2) L = some b →
      ∀ en ∈ b, en.order_id ≠ oid := by
  intro b hb en hen
  unfold removeLiqBucket at hb
  cases hg : aGet assetLiq L2 with
  | none =>
      rw [hg] at hb
      simp only [] at hb
      exact h b hb en hen
  | some entries =>
      rw [hg] at hb
      simp only [] at hb
      by_cases hL : L2 = L
      · subst hL
        by_cases hr : entries.filter (fun e => e.order_id != oid2) = []
        · rw [if_pos hr, aGet_aErase_self _ _ hn] at hb
          exact Option.noConfusion hb
        · rw [if_neg hr, aGet_aSet_self] at hb
          replace hb := Option.some.inj hb
          subst hb
          exact h entries hg en ((List.mem_filter.mp hen).1)
      · by_cases hr : entries.filter (fun e => e.order_id != oid2) = []
        · rw [if_pos hr, aGet_aErase_ne _ _ _ hL] at hb
          exact h b hb en hen
        · rw [if_neg hr, aGet_aSet_ne _ _ _ _ hL] at hb
          exact h b hb en hen

theorem removeLiqBucket_keysNodup
    (assetLiq : List (Dec × List LiquidationEntry)) (L : Dec) (oid : String)
    (hn : KeysNodup assetLiq) :
    KeysNodup (removeLiqBucket assetLiq L oid) := by
  unfold removeLiqBucket
  cases aGet assetLiq L with
  | none => exact hn
  | some entries =>
      simp only []
      by_cases hr : entries.filter (fun e => e.order_id != oid) = []
      · rw [if_pos hr]
        exact keysNodup_aErase _ _ hn
      · rw [if_neg hr]
        exact keysNodup_aSet _ _ _ hn

theorem removeLiqForOrder_establishes (m : LiqMap) (o : Order) (L : Dec)
    (lm : LiqMap) (hn : KeysNodup m) (hni : ∀ q ∈ m, KeysNodup q.2)
    (hc : calculate_liquidation_price o = some L)
    (h : removeLiqForOrder m o o.order_id = some lm) :
    NoLiqEntry lm o.asset L o.order_id := by
  intro al hal b hbb en hen
  unfold removeLiqForOrder at h
  cases hg : aGet m o.asset with
  | none =>
      rw [hg] at h
      simp only [] at h
      replace h := Option.some.inj h
      subst h
      rw [hg] at hal
      exact Option.noConfusion hal
  | some assetLiq =>
      rw [hg] at h
      simp only [hc] at h
      replace h := Option.some.inj h
      subst h
      have hinner : KeysNodup assetLiq := hni _ (aGet_mem hg)
      by_cases hr : removeLiqBucket assetLiq L o.order_id = []
      · rw [if_pos hr, aGet_aErase_self _ _ hn] at hal
        exact Option.noConfusion hal
      · rw [if_neg hr, aGet_aSet_self] at hal
        replace hal := Option.some.inj hal
        subst hal
        exact removeLiqBucket_establishes assetLiq L o.order_id hinner
          b hbb en hen

theorem removeLiqForOrder_preserves (m : LiqMap) (o2 : Order)
    (asset : String) (L : Dec) (oid oid2 : String) (lm : LiqMap)
    (hn : KeysNodup m) (hni : ∀ q ∈ m, KeysNodup q.2)
    (hno : NoLiqEntry m asset L oid)
    (h : removeLiqForOrder m o2 oid2 = some lm) :
    NoLiqEntry lm asset L oid := by
  intro al hal b hbb en hen
  unfold removeLiqForOrder at h
  cases hg : aGet m o2.asset with
  | none =>
      rw [hg] at h
      simp only [] at h
      replace h := Option.some.inj h
      subst h
      exact hno al hal b hbb en hen
  | some assetLiq =>
      rw [hg] at h
      cases hc : calculate_liquidation_price o2 with
      | none =>
          rw [hc] at h
          simp only [] at h
          exact Option.noConfusion h
      | some L2 =>
          rw [hc] at h
          simp only [] at h
          replace h := Option.some.inj h
          subst h
          have hinner : KeysNodup assetLiq := hni _ (aGet_mem hg)
          by_cases ha : o2.asset = asset
          · subst ha
            by_cases hr : removeLiqBucket assetLiq L2 oid2 = []
            · rw [if_pos hr, aGet_aErase_self _ _ hn] at hal
              exact Option.noConfusion hal
            · rw [if_neg hr, aGet_aSet_self] at hal
              replace hal := Option.some.inj hal
              subst hal
              exact removeLiqBucket_preserves assetLiq L L2 oid oid2 hinner
                (fun b2 hb2 => hno assetLiq hg b2 hb2) b hbb en hen
          · by_cases hr : removeLiqBucket assetLiq L2 oid2 = []
            · rw [if_pos hr, aGet_aErase_ne _ _ _ ha] at hal
              exact hno al hal b hbb en hen
            · rw [if_neg hr, aGet_aSet_ne _ _ _ _ ha] at hal
              exact hno al hal b hbb en hen

theorem removeLiqForOrder_wellKeys (m : LiqMap) (o2 : Order) (oid2 : String)
    (lm : LiqMap) (hn : KeysNodup m) (hni : ∀ q ∈ m, KeysNodup q.2)
    (h : removeLiqForOrder m o2 oid2 = some lm) :
    KeysNodup lm ∧ ∀ q ∈ lm, KeysNodup q.2 := by
  unfold removeLiqForOrder at h
  cases hg : aGet m o2.asset with
  | none =>
      rw [hg] at h
      simp only [] at h
      replace h := Option.some.inj h
      subst h
      exact ⟨hn, hni⟩
  | some assetLiq =>
      rw [hg] at h
      cases hc : calculate_liquidation_price o2 with
      | none =>
          rw [hc] at h
          simp only [] at h
          exact Option.noConfusion h
      | some L2 =>
          rw [hc] at h
          simp only [] at h
          replace h := Option.some.inj h
          subst h
          have hinner : KeysNodup assetLiq := hni _ (aGet_mem hg)
          by_cases hr : removeLiqBucket assetLiq L2 oid2 = []
          · rw [if_pos hr]
            exact ⟨keysNodup_aErase _ _ hn,
              fun q hq => hni q (mem_aErase hq)⟩
          · rw [if_neg hr]
            refine ⟨keysNodup_aSet _ _ _ hn, ?_⟩
            intro q hq
            rcases mem_aSet hq with h2 | h2
            · subst h2
              exact removeLiqBucket_keysNodup _ _ _ hinner
            · exact hni q h2

theorem liquidate_order_users (st st2 : BalanceManager) (oid : String)
    (r : Option String) (h : liquidate_order st oid = some (st2, r)) :
    st2.users = st.users := by
  simp only [liquidate_order] at h
  cases hlu : aGet st.orders_by_id oid with
  | none =>
      rw [hlu] at h
      simp only [] at h
      replace h := Option.some.inj h
      rw [Prod.mk.injEq] at h
      obtain ⟨h1, -⟩ := h
      subst h1
      rfl
  | some order2 =>
      rw [hlu] at h
      simp only [] at h
      cases hrm : removeLiqForOrder st.liquidation_map order2 oid with
      | none =>
          rw [hrm] at h
          exact Option.noConfusion h
      | some lm =>
          rw [hrm] at h
          simp only [] at h
          replace h := Option.some.inj h
          rw [Prod.mk.injEq] at h
          obtain ⟨h1, -⟩ := h
          subst h1
          rfl

theorem liquidate_order_gone (st st2 : BalanceManager) (o : Order) (L : Dec)
    (r : Option String) (hw : WellIndexed st)
    (ho : aGet st.orders_by_id o.order_id = some o)
    (hc : calculate_liquidation_price o = some L)
    (h : liquidate_order st o.order_id = some (st2, r)) :
    GoneFromIndices st2 o L := by
  simp only [liquidate_order, ho] at h
  cases hrm : removeLiqForOrder st.liquidation_map o o.order_id with
  | none =>
      rw [hrm] at h
      exact Option.noConfusion h
  | some lm =>
      rw [hrm] at h
      simp only [] at h
      replace h := Option.some.inj h
      rw [Prod.mk.injEq] at h
      obtain ⟨h1, -⟩ := h
      subst h1
      refine ⟨?_, ?_, ?_⟩
      · exact aGet_aErase_self _ _ hw.1
      · exact removeUserOrder_establishes _ _ _ hw.2.1
      · exact removeLiqForOrder_establishes _ _ _ _ hw.2.2.1 hw.2.2.2 hc hrm

theorem liquidate_order_preserves (st st2 : BalanceManager) (o : Order)
    (L : Dec) (oid2 : String) (r : Option String) (hw : WellIndexed st)
    (hg : GoneFromIndices st o L)
    (h : liquidate_order st oid2 = some (st2, r)) :
    GoneFromIndices st2 o L := by
  simp only [liquidate_order] at h
  cases hlu : aGet st.orders_by_id oid2 with
  | none =>
      rw [hlu] at h
      simp only [] at h
      replace h := Option.some.inj h
      rw [Prod.mk.injEq] at h
      obtain ⟨h1, -⟩ := h
      subst h1
      exact hg
  | some order2 =>
      rw [hlu] at h
      simp only [] at h
      have hne : oid2 ≠ o.order_id := by
        intro he
        rw [he, hg.1] at hlu
        exact Option.noConfusion hlu
      cases hrm : removeLiqForOrder st.liquidation_map order2 oid2 with
      | none =>
          rw [hrm] at h
          exact Option.noConfusion h
      | some lm =>
          rw [hrm] at h
          simp only [] at h
          replace h := Option.some.inj h
          rw [Prod.mk.injEq] at h
          obtain ⟨h1, -⟩ := h
          subst h1
          refine ⟨?_, ?_, ?_⟩
          · rw [aGet_aErase_ne _ _ _ hne]
            exact hg.1
          · exact removeUserOrder_preserves _ _ _ _ _ hw.2.1 hg.2.1
          · exact removeLiqForOrder_preserves _ _ _ _ _ _ _ hw.2.2.1
              hw.2.2.2 hg.2.2 hrm

theorem liquidate_order_wellIndexed (st st2 : BalanceManager) (oid : String)
    (r : Option String) (hw : WellIndexed st)
    (h : liquidate_order st oid = some (st2, r)) : WellIndexed st2 := by
  simp only [liquidate_order] at h
  cases hlu : aGet st.orders_by_id oid with
  | none =>
      rw [hlu] at h
      simp only [] at h
      replace h := Option.some.inj h
      rw [Prod.mk.injEq] at h
      obtain ⟨h1, -⟩ := h
      subst h1
      exact hw
  | some order2 =>
      rw [hlu] at h
      simp only [] at h
      cases hrm : removeLiqForOrder st.liquidation_map order2 oid with
      | none =>
          rw [hrm] at h
          exact Option.noConfusion h
      | some lm =>
          rw [hrm] at h
          simp only [] at h
          replace h := Option.some.inj h
          rw [Prod.mk.injEq] at h
          obtain ⟨h1, -⟩ := h
          subst h1
          obtain ⟨hk, hki⟩ := removeLiqForOrder_wellKeys _ _ _ _
            hw.2.2.1 hw.2.2.2 hrm
          exact ⟨keysNodup_aErase _ _ hw.1,
            removeUserOrder_keysNodup _ _ _ hw.2.1, hk, hki⟩

theorem liquidate_order_live (st st2 : BalanceManager) (o : Order)
    (oid2 : String) (r : Option String) (hne : oid2 ≠ o.order_id)
    (ho : aGet st.orders_by_id o.order_id = some o)
    (h : liquidate_order st oid2 = some (st2, r)) :
    aGet st2.orders_by_id o.order_id = some o := by
  simp only [liquidate_order] at h
  cases hlu : aGet st.orders_by_id oid2 with
  | none =>
      rw [hlu] at h
      simp only [] at h
      replace h := Option.some.inj h
      rw [Prod.mk.injEq] at h
      obtain ⟨h1, -⟩ := h
      subst h1
      exact ho
  | some order2 =>
      rw [hlu] at h
      simp only [] at h
      cases hrm : removeLiqForOrder st.liquidation_map order2 oid2 with
      | none =>
          rw [hrm] at h
          exact Option.noConfusion h
      | some lm =>
          rw [hrm] at h
          simp only [] at h
          replace h := Option.some.inj h
          rw [Prod.mk.injEq] at h
          obtain ⟨h1, -⟩ := h
          subst h1
          rw [aGet_aErase_ne _ _ _ hne]
          exact ho

theorem liquidateAll_keeps_gone (l : List (String × String)) :
    ∀ st st2 : BalanceManager, ∀ o : Order, ∀ L : Dec,
    WellIndexed st → GoneFromIndices st o L →
    liquidateAll st l = some st2 →
    GoneFromIndices st2 o L ∧ st2.users = st.users := by
  induction l with
  | nil =>
      intro st st2 o L hw hg h
      simp only [liquidateAll] at h
      replace h := Option.some.inj h
      subst h
      exact ⟨hg, rfl⟩
  | cons p rest ih =>
      intro st st2 o L hw hg h
      obtain ⟨oid1, u1⟩ := p
      simp only [liquidateAll] at h
      cases hq : liquidate_order st oid1 with
      | none =>
          rw [hq] at h
          exact Option.noConfusion h
      | some pr =>
          rw [hq] at h
          obtain ⟨stm, r⟩ := pr
          simp only [] at h
          have hw2 := liquidate_order_wellIndexed st stm oid1 r hw hq
          have hg2 := liquidate_order_preserves st stm o L oid1 r hw hg hq
          have hu := liquidate_order_users st stm oid1 r hq
          obtain ⟨hgone, husers⟩ := ih stm st2 o L hw2 hg2 h
          exact ⟨hgone, by rw [husers, hu]⟩

theorem liquidateAll_removes (l : List (String × String)) :
    ∀ st st2 : BalanceManager, ∀ o : Order, ∀ L : Dec,
    WellIndexed st →
    aGet st.orders_by_id o.order_id = some o →
    calculate_liquidation_price o = some L →
    (∃ x, (o.order_id, x) ∈ l) →
    liquidateAll st l = some st2 →
    GoneFromIndices st2 o L ∧ st2.users = st.users := by
  induction l with
  | nil =>
      intro st st2 o L hw ho hc hmem h
      obtain ⟨x, hx⟩ := hmem
      simp at hx
  | cons p rest ih =>
      intro st st2 o L hw ho hc hmem h
      obtain ⟨oid1, u1⟩ := p
      simp only [liquidateAll] at h
      cases hq : liquidate_order st oid1 with
      | none =>
          rw [hq] at h
          exact Option.noConfusion h
      | some pr =>
          rw [hq] at h
          obtain ⟨stm, r⟩ := pr
          simp only [] at h
          have hw2 := liquidate_order_wellIndexed st stm oid1 r hw hq
          have hu := liquidate_order_users st stm oid1 r hq
          by_cases h1 : oid1 = o.order_id
          · subst h1
            have hg2 := liquidate_order_gone st stm o L r hw ho hc hq
            obtain ⟨hgone, husers⟩ :=
              liquidateAll_keeps_gone rest stm st2 o L hw2 hg2 h
            exact ⟨hgone, by rw [husers, hu]⟩
          · obtain ⟨x, hx⟩ := hmem
            have hx2 : (o.order_id, x) ∈ rest := by
              rcases List.mem_cons.mp hx with h2 | h2
              · rw [Prod.mk.injEq] at h2
                exact absurd h2.1.symm h1
              · exact h2
            have ho2 := liquidate_order_live st stm o oid1 r
              (fun he => h1 he) ho hq
            obtain ⟨hgone, husers⟩ := ih stm st2 o L hw2 ho2 hc ⟨x, hx2⟩ h
            exact ⟨hgone, by rw [husers, hu]⟩

theorem check_liquidations_collects (st : BalanceManager) (o : Order)
    (p : AssetPrice) (L : Dec)
    (assetLiq : List (Dec × List LiquidationEntry))
    (bucket : List LiquidationEntry) (en : LiquidationEntry)
    (ho : aGet st.orders_by_id o.order_id = some o)
    (hp : aGet st.asset_prices o.asset = some p)
    (hal : aGet st.liquidation_map o.asset = some assetLiq)
    (hb : aGet assetLiq L = some bucket)
    (he : en ∈ bucket) (heid : en.order_id = o.order_id)
    (htrig : if o.order_type = "long"
        then (p.buy_price + p.sell_price) / 2 ≤ L
        else L ≤ (p.buy_price + p.sell_price) / 2) :
    (o.order_id, en.user_id) ∈ check_liquidations st := by
  unfold check_liquidations
  rw [List.mem_flatMap]
  refine ⟨(o.asset, assetLiq), aGet_mem hal, ?_⟩
  simp only []
  rw [hp]
  simp only []
  rw [List.mem_flatMap]
  refine ⟨(L, bucket), aGet_mem hb, ?_⟩
  simp only []
  have htrigger : bucketTriggers st ((p.buy_price + p.sell_price) / 2) L
      bucket = true := by
    unfold bucketTriggers
    rw [List.any_eq_true]
    refine ⟨en, he, ?_⟩
    rw [heid, ho]
    by_cases hl : o.order_type = "long"
    · rw [if_pos hl] at htrig
      simp [hl, htrig]
    · rw [if_neg hl] at htrig
      simp [hl, htrig]
  rw [if_pos htrigger]
  rw [List.mem_map]
  refine ⟨en, he, ?_⟩
  rw [heid]

/-- Claim C6: in a well-indexed state, for every live order whose asset
has a price, whose liquidation entry is present at its stored price `L`,
and whose mid price has crossed `L` (`mid ≤ L` for a long, `mid ≥ L` for
a short), a completed scan tick (`check_liquidations` followed by
`liquidate_order` on each collected id) removes the order from
`orders_by_id`, from its owner's `orders_by_user` list and from its
liquidation bucket, and does not touch any user balance — the margin is
forfeited. -/
theorem claim_c6_liquidation_scan (st st2 : BalanceManager) (o : Order)
    (p : AssetPrice) (L : Dec)
    (assetLiq : List (Dec × List LiquidationEntry))
    (bucket : List LiquidationEntry) (en : LiquidationEntry)
    (hw : WellIndexed st)
    (ho : aGet st.orders_by_id o.order_id = some o)
    (hp : aGet st.asset_prices o.asset = some p)
    (hc : calculate_liquidation_price o = some L)
    (hal : aGet st.liquidation_map o.asset = some assetLiq)
    (hb : aGet assetLiq L = some bucket)
    (he : en ∈ bucket) (heid : en.order_id = o.order_id)
    (htrig : if o.order_type = "long"
        then (p.buy_price + p.sell_price) / 2 ≤ L
        else L ≤ (p.buy_price + p.sell_price) / 2)
    (hdone : scan_tick st = some st2) :
    aGet st2.orders_by_id o.order_id = none
      ∧ (∀ l, aGet st2.orders_by_user o.user_id = some l → o.order_id ∉ l)
      ∧ NoLiqEntry st2.liquidation_map o.asset L o.order_id
      ∧ st2.users = st.users := by
  have hmem := check_liquidations_collects st o p L assetLiq bucket en
    ho hp hal hb he heid htrig
  have h := liquidateAll_removes (check_liquidations st) st st2 o L hw ho hc
    ⟨en.user_id, hmem⟩ hdone
  exact ⟨h.1.1, h.1.2.1, h.1.2.2, h.2⟩

/-- The spec's liquidation-scenario price: BTC buy 91 / sell 90, so
`mid = 90.5 ≤ L = 91`. -/
def c6Price : AssetPrice :=
  { symbol := "BTC", buy_price := 91, sell_price := 90, decimals := 2 }

/-- The liquidation entry of `demoOrderLive`. -/
def c6Entry : LiquidationEntry :=
  { order_id := "o1", user_id := "u1", liquidation_price := 91 }

/-- The state of the spec's liquidation scenario. -/
def c6State : BalanceManager :=
  { users := [("u1", { usd_balance := 4900, asset_balances := [] })],
    orders_by_id := [("o1", demoOrderLive)],
    orders_by_user := [("u1", ["o1"])],
    liquidation_map := [("BTC", [(91, [c6Entry])])],
    asset_prices := [("BTC", c6Price)] }

/-- The state after the scan tick: order gone, balance still 4900. -/
def c6Post : BalanceManager :=
  { users := [("u1", { usd_balance := 4900, asset_balances := [] })],
    orders_by_id := [], orders_by_user := [], liquidation_map := [],
    asset_prices := [("BTC", c6Price)] }

/-- Claim C6, witness: the scan theorem at the spec's liquidation
scenario (mid `90.5`, `L = 91`, long). -/
theorem claim_c6_witness :
    aGet c6Post.orders_by_id demoOrderLive.order_id = none
      ∧ (∀ l, aGet c6Post.orders_by_user demoOrderLive.user_id = some l →
          demoOrderLive.order_id ∉ l)
      ∧ NoLiqEntry c6Post.liquidation_map demoOrderLive.asset 91
          demoOrderLive.order_id
      ∧ c6Post.users = c6State.users :=
  claim_c6_liquidation_scan c6State c6Post demoOrderLive c6Price 91
    [(91, [c6Entry])] [c6Entry] c6Entry
    (by simp [WellIndexed, KeysNodup, c6State])
    (by norm_num [c6State, aGet, demoOrderLive, demoOrderReq])
    (by norm_num [c6State, aGet, demoOrderLive, demoOrderReq])
    (by norm_num [calculate_liquidation_price, demoOrderLive, demoOrderReq,
      U32MOD])
    (by norm_num [c6State, aGet, demoOrderLive, demoOrderReq])
    (by norm_num [aGet])
    (by simp)
    rfl
    (by norm_num [demoOrderLive, demoOrderReq, c6Price])
    (by norm_num [scan_tick, liquidateAll, check_liquidations, bucketTriggers,
      liquidate_order, removeUserOrder, removeLiqForOrder, removeLiqBucket,
      calculate_liquidation_price, aGet, aSet, aErase, c6State, c6Post,
      c6Price, c6Entry, demoOrderLive, demoOrderReq, U32MOD])

end Exness
